import Mathlib

/-!
Shallow embedding of the `rust-concurrent` lock library: the bounded-lock
borrow counter, the Peterson / Filter / Bakery bounded locks, the Array
(slot) lock, the CLH and Timeout queue locks built on `AcquireBox`, the
`Atomic` owned cell and the exponential `Backoff` helper, together with
theorems settling the specification claims about them.

Machine integers are embedded as `Int`/`Nat` (with explicit `% 2^64`
where the source truncates); Rust panics and sequentially non-terminating
spins are embedded as `Option`/`none`; atomic memory orderings are
embedded as a data type and each atomic access of the relevant code paths
is recorded in an event trace.
-/

/-- Rust `std::sync::atomic::Ordering`. -/
inductive MemOrder where
  | relaxed
  | acquire
  | release
  | acqrel
  | seqcst
deriving DecidableEq, Repr

/-- Kind of an atomic access. -/
inductive AccessKind where
  | load
  | store
  | rmw
deriving DecidableEq, Repr

/-- The recoverable error returned by `borrow` on bounded locks
(`src/lock.rs`, `BorrowError::ThreadCapacityExceeded`). -/
inductive BorrowError where
  | threadCapacityExceeded
deriving DecidableEq, Repr

/-! ## Bounded-lock reference counter

All four bounded locks (`peterson.rs`, `filter.rs`, `bakery.rs`,
`array.rs`) share the same `borrow` / `Drop` discipline on the
`refs_left : AtomicIsize` field:

    let refs_left = self.refs_left.fetch_sub(1, Relaxed);
    if refs_left > 0 { Ok(...) } else {
        self.refs_left.fetch_add(1, Relaxed);
        Err(ThreadCapacityExceeded)
    }

and `Drop` performs `self.refs_left.fetch_add(1, Relaxed)`.  We embed the
counter as an `Int` (an `isize`); the pre-decrement value is returned by
`fetch_sub`. -/

/-- One `borrow` call on the shared `refs_left` counter: returns the
pre-decrement value on success together with the new counter, or the
error with the restored counter. -/
def borrowRefs (r : Int) : Except BorrowError Int × Int :=
  let refsLeft := r           -- fetch_sub returns the previous value
  let r1 := r - 1
  if refsLeft > 0 then (Except.ok refsLeft, r1)
  else (Except.error BorrowError.threadCapacityExceeded, r1 + 1)

/-- Dropping a bounded-lock reference: `refs_left.fetch_add(1, Relaxed)`. -/
def refDrop (r : Int) : Int := r + 1

/-! ## Peterson lock (`src/lock/peterson.rs`) -/

/-- State of a `PetersonLock`: two flags, a victim bit and the reference
counter (`refs_left`). -/
structure PetersonLock where
  flag0 : Bool
  flag1 : Bool
  victim : Bool
  refsLeft : Int
deriving DecidableEq, Repr

/-- `PetersonLock::with_capacity` (peterson.rs lines 36-46): panics
(`none`) when `max_threads > 2`, otherwise builds the fixed two-slot
state; the requested count is not recorded. -/
def PetersonLock.with_capacity (maxThreads : Nat) : Option PetersonLock :=
  if maxThreads > 2 then none
  else some { flag0 := false, flag1 := false, victim := false, refsLeft := 2 }

/-- `BoundedLock::capacity` for `PetersonLock`: always 2. -/
def PetersonLock.capacity (_ : PetersonLock) : Nat := 2

/-- `BoundedLock::refs_left` for `PetersonLock`: clamps the counter at 0. -/
def PetersonLock.refs_left (l : PetersonLock) : Nat :=
  if l.refsLeft < 0 then 0 else l.refsLeft.toNat

/-- `PetersonLock::borrow` (peterson.rs lines 21-32): on success the
reference id is the boolean `refs_left == 1` computed from the
pre-decrement counter value. -/
def PetersonLock.borrow (l : PetersonLock) : Except BorrowError Bool × PetersonLock :=
  match borrowRefs l.refsLeft with
  | (Except.ok refsLeft, r') => (Except.ok (refsLeft == 1), { l with refsLeft := r' })
  | (Except.error e, r') => (Except.error e, { l with refsLeft := r' })

/-- Dropping a `PetersonRef` (peterson.rs lines 54-58). -/
def PetersonLock.dropRef (l : PetersonLock) : PetersonLock :=
  { l with refsLeft := refDrop l.refsLeft }

/-! ## Filter and Bakery `borrow` and the indices their `acquire` touches

`FilterLock::borrow` (filter.rs lines 21-29) and `BakeryLock::borrow`
(bakery.rs lines 21-29) both build the reference with
`id: refs_left as usize` where `refs_left` is the **pre-decrement**
counter value, so the first borrow on a fresh lock of capacity `K`
receives `id = K`, the second `K - 1`, and so on down to `1`. -/

/-- `BakeryLock::borrow` / `FilterLock::borrow`: the successful result
carries `id = refs_left as usize` (the pre-decrement value). -/
def slotBorrow (refsLeft : Int) : Except BorrowError Nat × Int :=
  match borrowRefs refsLeft with
  | (Except.ok r, r') => (Except.ok r.toNat, r')
  | (Except.error e, r') => (Except.error e, r')

/-- A fresh `BakeryLock`/`FilterLock` of capacity `K` starts with
`refs_left = K` (with_capacity, bakery.rs line 43 / filter.rs line 43). -/
def freshRefsLeft (K : Nat) : Int := (K : Int)

/-- The indices into the per-participant arrays (`flags`/`labels` for
Bakery, `levels` for Filter) that `acquire` dereferences for a reference
with identity `id`: the very first statement of `BakeryRef::acquire`
(bakery.rs line 69) is `flags[self.id].store(true, SeqCst)`, and
`FilterRef::acquire` stores to `levels[self.id]` (filter.rs line 66) and
returns `LevelGuard::new(&levels[self.id])` (line 74); both also scan
indices `0..capacity`. -/
def acquireTouchedIndices (capacity id : Nat) : List Nat :=
  id :: List.range capacity

/-- An index is in bounds for the length-`K` arrays allocated by
`with_capacity`. -/
def indexInBounds (K idx : Nat) : Prop := idx < K

instance (K idx : Nat) : Decidable (indexInBounds K idx) :=
  inferInstanceAs (Decidable (idx < K))

/-! ## Bakery lock `acquire` (`src/lock/bakery.rs` lines 59-87)

`BakeryRef::acquire` performs, in order:
  - `flags[self.id].store(true, SeqCst)`                          (line 69)
  - a scan `for label in labels { label.load(SeqCst) }` computing
    one-plus-the-max                                              (lines 70-75)
  - `labels[self.id].store(my_label, SeqCst)`                     (line 76)
  - a spin loop `while (0..capacity).any(|k| ...)` whose closure
    short-circuits: it returns early for `k == id`, loads
    `flags[k]` with `SeqCst` and returns early when false, and
    otherwise loads `labels[k]` with `Relaxed` and compares labels
    with identity tie-break                                        (lines 77-84).

We record every atomic access on the `flags`/`labels` arrays in a trace.
The shared arrays are embedded as functions so that other participants'
concurrent writes can be modelled as a per-spin-pass environment; the
acquiring participant's own slots are always taken from its own writes
(no other participant ever writes slot `id`). -/

/-- A location in the Bakery lock's shared arrays. -/
inductive BakeryLoc where
  | flag (k : Nat)
  | label (k : Nat)
deriving DecidableEq, Repr

/-- One atomic access performed by `BakeryRef::acquire`. -/
structure BakeryEvent where
  kind : AccessKind
  loc : BakeryLoc
  order : MemOrder
deriving DecidableEq, Repr

/-- The shared state of a `BakeryLock` as seen at one instant. -/
structure BakeryState where
  capacity : Nat
  flags : Nat → Bool
  labels : Nat → Nat

/-- Write participant `k`'s flag. -/
def BakeryState.setFlag (s : BakeryState) (k : Nat) (v : Bool) : BakeryState :=
  { s with flags := fun j => if j = k then v else s.flags j }

/-- Write participant `k`'s label. -/
def BakeryState.setLabel (s : BakeryState) (k v : Nat) : BakeryState :=
  { s with labels := fun j => if j = k then v else s.labels j }

/-- The doorway of `BakeryRef::acquire` (bakery.rs lines 69-76): set own
flag, scan all labels for the maximum, publish `max + 1` as own label.
Returns `my_label`, the state holding the participant's own writes, and
the trace of atomic accesses. -/
def bakeryDoorway (s : BakeryState) (id : Nat) : Nat × BakeryState × List BakeryEvent :=
  let s1 := s.setFlag id true
  let maxLabel := ((List.range s.capacity).map s1.labels).foldl max 0
  let myLabel := maxLabel + 1
  let s2 := s1.setLabel id myLabel
  (myLabel, s2,
    ⟨AccessKind.store, BakeryLoc.flag id, MemOrder.seqcst⟩ ::
      ((List.range s.capacity).map
        fun k => ⟨AccessKind.load, BakeryLoc.label k, MemOrder.seqcst⟩) ++
      [⟨AccessKind.store, BakeryLoc.label id, MemOrder.seqcst⟩])

/-- One evaluation of the spin-loop closure of bakery.rs lines 77-84 at
index `k`, with its short-circuit structure: no access for `k == id`, a
`SeqCst` load of `flags[k]` (stopping if false), then a `Relaxed` load of
`labels[k]` and the label/identity comparison. -/
def bakerySpinCheck (s : BakeryState) (id myLabel k : Nat) : Bool × List BakeryEvent :=
  if k = id then (false, [])
  else
    let flagEv : BakeryEvent := ⟨AccessKind.load, BakeryLoc.flag k, MemOrder.seqcst⟩
    if !(s.flags k) then (false, [flagEv])
    else
      let labelEv : BakeryEvent := ⟨AccessKind.load, BakeryLoc.label k, MemOrder.relaxed⟩
      let otherLabel := s.labels k
      let r :=
        if otherLabel < myLabel then true
        else if otherLabel > myLabel then false
        else decide (k < id)
      (r, [flagEv, labelEv])

/-- `Iterator::any` over the indices `ks`, short-circuiting at the first
`true`, accumulating the trace of the closure evaluations performed. -/
def bakeryAnyAux (s : BakeryState) (id myLabel : Nat) : List Nat → Bool × List BakeryEvent
  | [] => (false, [])
  | k :: ks =>
    let c := bakerySpinCheck s id myLabel k
    if c.1 then (true, c.2)
    else
      let rest := bakeryAnyAux s id myLabel ks
      (rest.1, c.2 ++ rest.2)

/-- One full evaluation of the spin-loop predicate
`(0..capacity).any(|k| ...)`. -/
def bakerySpinPass (s : BakeryState) (id myLabel : Nat) : Bool × List BakeryEvent :=
  bakeryAnyAux s id myLabel (List.range s.capacity)

/-- Overlay the acquiring participant's own slot values on an
environment snapshot (other participants never write slot `id`). -/
def imposeOwn (own : BakeryState) (id : Nat) (env : BakeryState) : BakeryState :=
  { capacity := own.capacity,
    flags := fun k => if k = id then own.flags k else env.flags k,
    labels := fun k => if k = id then own.labels k else env.labels k }

/-- The spin loop of `BakeryRef::acquire`: each element of `envs` is the
shared state in which one evaluation of the loop predicate happens; the
loop exits when a pass returns false.  `none` means the given schedule
never lets the loop exit (the acquire is still spinning). -/
def bakerySpinLoop (s2 : BakeryState) (id myLabel : Nat) :
    List BakeryState → Option (List BakeryEvent)
  | [] => none
  | env :: rest =>
    let p := bakerySpinPass (imposeOwn s2 id env) id myLabel
    if p.1 then
      match bakerySpinLoop s2 id myLabel rest with
      | none => none
      | some tail => some (p.2 ++ tail)
    else some p.2

/-- `BakeryRef::acquire` (bakery.rs lines 61-86) run against a schedule
of environment snapshots, returning the full trace of atomic accesses on
`flags`/`labels` when the spin loop exits under that schedule. -/
def bakeryAcquire (s : BakeryState) (id : Nat) (envs : List BakeryState) :
    Option (List BakeryEvent) :=
  let d := bakeryDoorway s id
  (bakerySpinLoop d.2.1 id d.1 envs).map (fun sp => d.2.2 ++ sp)

/-! ## Array lock `acquire`

Two iterations are present in the source:
  - `ArrayRef::acquire` (`src/lock/array.rs` lines 62-69):
    `let slot = lock.next_slot.fetch_add(1, Relaxed);` then
    `while !curr_flag.load(Acquire) { }` where
    `curr_flag = get_flag(slot)` indexes `flags[slot % capacity]`;
  - `ArrayLockRef::acquire` (`src/lock.rs` lines 362-370):
    identical except `fetch_add(1, AcqRel)` with the comment
    "using AcqRel ensures fairness".

The spin is driven by a schedule of observed flag values; the acquire
returns once a `true` is observed. -/

/-- A location in the Array lock's shared state. -/
inductive ArrayLoc where
  | nextSlot
  | flag (k : Nat)
deriving DecidableEq, Repr

/-- One atomic access performed by the Array lock's `acquire`. -/
structure ArrayEvent where
  kind : AccessKind
  loc : ArrayLoc
  order : MemOrder
deriving DecidableEq, Repr

/-- Number of loads performed by `while !curr_flag.load(Acquire) { }`
against a schedule of observed values: the loop stops at the first
`true`; `none` if the schedule never supplies one. -/
def spinLoadsUntilTrue : List Bool → Option Nat
  | [] => none
  | b :: rest => if b then some 1 else (spinLoadsUntilTrue rest).map (· + 1)

/-- The trace of the Array lock `acquire` with the given ordering on the
`next_slot` fetch-and-increment: the RMW obtaining `slot` (the
pre-increment counter value), then `Acquire` loads of
`flags[slot % capacity]` until one observes `true`. -/
def arrayAcquireTrace (fetchOrder : MemOrder) (capacity slot : Nat)
    (sched : List Bool) : Option (List ArrayEvent) :=
  (spinLoadsUntilTrue sched).map fun n =>
    ⟨AccessKind.rmw, ArrayLoc.nextSlot, fetchOrder⟩ ::
      List.replicate n ⟨AccessKind.load, ArrayLoc.flag (slot % capacity), MemOrder.acquire⟩

/-- `ArrayRef::acquire` of `src/lock/array.rs` (fetch_add with `Relaxed`,
line 64). -/
def arrayRefAcquireTrace (capacity slot : Nat) (sched : List Bool) :
    Option (List ArrayEvent) :=
  arrayAcquireTrace MemOrder.relaxed capacity slot sched

/-- `ArrayLockRef::acquire` of `src/lock.rs` (fetch_add with `AcqRel`,
line 365). -/
def arrayLockRefAcquireTrace (capacity slot : Nat) (sched : List Bool) :
    Option (List ArrayEvent) :=
  arrayAcquireTrace MemOrder.acqrel capacity slot sched

/-! ## The atomic owned cell (`src/atomic.rs`)

`Atomic<T>` (atomic.rs lines 117-156) owns exactly one value of `T`,
stored through `T`'s raw representation in the underlying machine
atomic.  `swap` (line 126) delegates to `swap_atomic`, which returns the
previously stored value; `compare_swap_strong` (lines 129-132) delegates
to `Atomizable::compare_swap_strong` (lines 44-51), which runs
`atomic.compare_exchange(compare, self, order, Relaxed)` — success iff
the currently stored raw equals `compare` — and maps `Ok(old)` to the
displaced old value and `Err(_)` to `Err(self)`, handing the
not-installed new value back to the caller.

The cell is embedded as the owned value it currently holds; the raw
identity used by the compare is an arbitrary projection `rawOf`. -/

/-- `Atomic<T>`: the owned value currently installed in the cell. -/
structure AtomicCell (α : Type) where
  val : α
deriving DecidableEq, Repr

/-- `Atomic::swap` (atomic.rs line 126): installs `t`, returns the
displaced previously-installed value. -/
def AtomicCell.swap (c : AtomicCell α) (t : α) : α × AtomicCell α :=
  (c.val, ⟨t⟩)

/-- `Atomic::compare_swap_strong` (atomic.rs lines 129-132 and 44-51):
succeeds iff the raw identity of the current value equals `compare`;
on success returns the displaced value and installs `new`; on failure
returns `new` back to the caller and leaves the cell unchanged. -/
def AtomicCell.compare_swap_strong [DecidableEq ρ] (rawOf : α → ρ)
    (c : AtomicCell α) (compare : ρ) (new : α) : Except α α × AtomicCell α :=
  if rawOf c.val = compare then (Except.ok c.val, ⟨new⟩)
  else (Except.error new, c)

/-! ## `AcquireBox` and the CLH lock (`src/acqrel.rs`, `src/lock/clh.rs`)

A `Transferable<T>` (acqrel.rs lines 8-11) is a flag plus a payload;
`Transferable::acquire` (lines 21-23) spins `while !self.flag.load(Acquire)`,
and `Drop for AcquireBox` (lines 74-76) runs exactly that spin.  In the
sequential embedding the spin terminates (after observing the flag once)
iff the flag is already set, and diverges otherwise (`none`).

`ClhLock::new` (clh.rs lines 20-22) seeds the tail with
`AcquireBox::default_acquired()` — flag already `true`.
`acquire` (clh.rs lines 27-32) creates a fresh not-yet-released pair,
swaps the fresh box into the tail, drops the swapped-out predecessor box
(spinning until its flag is set) and returns the `ReleaseGuard`. -/

/-- `Transferable<T>`: one flag and one payload. -/
structure TransferNode (α : Type) where
  flag : Bool
  payload : α
deriving DecidableEq, Repr

/-- `Transferable::acquire` / `Drop for AcquireBox`: spin until the flag
is set.  Returns the number of loop iterations spent waiting (0 when the
flag is already set); `none` when the flag is unset and no notifier ever
arrives (the sequential spin never terminates). -/
def spinWaitIterations (flag : Bool) : Option Nat :=
  if flag then some 0 else none

/-- State of a `ClhLock`: the current tail node. -/
structure ClhState where
  tail : TransferNode Unit
deriving DecidableEq, Repr

/-- `ClhLock::new` (clh.rs lines 20-22): the tail starts as
`AcquireBox::default_acquired()`, whose flag is pre-set. -/
def ClhState.new : ClhState :=
  { tail := { flag := true, payload := () } }

/-- `<&ClhLock as LockRef>::acquire` (clh.rs lines 27-32): swap a fresh
node into the tail, dispose of the swapped-out predecessor (its drop
spins until the predecessor's flag is set), and return the guard.  The
result carries the new lock state, the guard (modelled as `Unit`) and
the number of spin iterations the disposal performed; `none` when the
disposal never terminates. -/
def clhAcquire (l : ClhState) : Option (ClhState × Unit × Nat) :=
  let next : TransferNode Unit := { flag := false, payload := () }
  let pred := l.tail
  match spinWaitIterations pred.flag with
  | none => none
  | some iters => some ({ tail := next }, (), iters)

/-! ## The timeout lock (`src/lock/timeout.rs`, `src/acqrel.rs` lines 126-149)

A `RecursiveAcquire` is an `AcquireBox<Option<RecursiveAcquire>>`: a
node with a flag and an optional predecessor-chain payload.
`try_recur` (acqrel.rs lines 132-137 / timeout.rs lines 15-20):

    match self.0.try_as_mut() {
        Ok(next) => next.take().and_then(Self::try_recur),
        Err(()) => Some(self),
    }

`try_as_mut` succeeds iff the node's flag is set; the satisfied node is
then consumed (dropped — its drop's spin is already satisfied) and the
walk recurses into the payload chain; an unsatisfied node is returned
whole.

`TimeoutLock::try_acquire` (timeout.rs lines 38-50) creates a fresh own
node `(acquire, release)`, swaps it into the tail receiving the previous
tail as predecessor chain, and loops: if `try_recur` collapses the whole
chain it returns `Some(release)`; otherwise, when the deadline has
elapsed, it stores the unconsumed remainder into its own node
(`*release = Some(inner_acquire)`) and returns `None` — dropping
`release` on return sets the own node's flag.  The deadline is embedded
as a fuel: the number of loop iterations the deadline still allows. -/

/-- `RecursiveAcquire`: a node flag plus an optional predecessor chain.
`last flag` embeds a node whose payload is `None`; `cons flag next`
embeds a node whose payload is `Some next`. -/
inductive RecAcq where
  | last (flag : Bool)
  | cons (flag : Bool) (next : RecAcq)
deriving DecidableEq, Repr

/-- `RecursiveAcquire::try_recur`: collapse the chain through satisfied
nodes; `none` when the whole chain was satisfied and consumed, otherwise
the first unsatisfied node (with its remaining chain). -/
def RecAcq.try_recur : RecAcq → Option RecAcq
  | .last false => some (.last false)
  | .cons false next => some (.cons false next)
  | .last true => none
  | .cons true n => n.try_recur

/-- Every node of the chain has its flag set. -/
def RecAcq.allSatisfied : RecAcq → Bool
  | .last f => f
  | .cons f n => f && n.allSatisfied

/-- Result of `TimeoutLock::try_acquire`: either a guard was returned
(`Some(release)` in the source), or the call timed out returning `None`,
in which case the caller's own node — flag set by the drop of `release`,
payload the stored remainder — is left behind for its successor. -/
inductive TimeoutResult where
  | acquired
  | timedOut (ownNode : RecAcq)
deriving DecidableEq, Repr

/-- The `while let Some(inner_acquire) = acquire.try_recur()` loop of
`TimeoutLock::try_acquire` (timeout.rs lines 42-48).  `fuel` is the
number of further loop iterations the deadline allows: when the walk
returns an unsatisfied remainder and the fuel is exhausted, the
remainder is stored into the caller's own node and the own node's flag
is set by the drop of `release`. -/
def tryAcquireLoop : Nat → RecAcq → TimeoutResult
  | fuel, acq =>
    match acq.try_recur with
    | none => TimeoutResult.acquired
    | some inner =>
      match fuel with
      | 0 => TimeoutResult.timedOut (.cons true inner)
      | f + 1 => tryAcquireLoop f inner

/-- `TimeoutLock::try_acquire` against the predecessor chain received
from the tail swap. -/
def timeoutTryAcquire (fuel : Nat) (prevTail : RecAcq) : TimeoutResult :=
  tryAcquireLoop fuel prevTail

/-- `r` is reachable from a chain by discarding only satisfied nodes:
each discarded node had its flag set when it was consumed. -/
inductive SatSuffix : RecAcq → RecAcq → Prop where
  | refl (c : RecAcq) : SatSuffix c c
  | step (n : RecAcq) (c : RecAcq) : SatSuffix c n → SatSuffix c (.cons true n)

/-! ## Backoff (`src/backoff.rs`)

    pub fn backoff(&mut self) {
        let delay = random_duration(self.limit);
        self.limit = min(2 * self.limit, self.max_limit);
        sleep(delay);
    }
    fn random_duration(limit: Duration) -> Duration {
        let nanos = random::<u64>() % limit.as_nanos() as u64;
        Duration::from_nanos(nanos)
    }

Durations are embedded as nanosecond counts.  `limit.as_nanos() as u64`
truncates the `u128` nanosecond count modulo `2^64`; `x % 0` panics in
Rust (embedded as `none`), and `2 * self.limit` panics when it exceeds
`Duration::MAX` (`u64::MAX` seconds plus `999_999_999` nanoseconds). -/

/-- `Duration::MAX` in nanoseconds. -/
def durationMaxNanos : Nat := (2 ^ 64 - 1) * 10 ^ 9 + (10 ^ 9 - 1)

/-- State of a `Backoff` (backoff.rs lines 4-7). -/
structure Backoff where
  limit : Nat
  maxLimit : Nat
deriving DecidableEq, Repr

/-- `Backoff::new` (backoff.rs lines 10-12). -/
def Backoff.new (min max : Nat) : Backoff :=
  { limit := min, maxLimit := max }

/-- `random_duration` (backoff.rs lines 20-23) with the random `u64`
draw supplied as an oracle `r`; panics (`none`) when the truncated
nanosecond count of `limit` is zero. -/
def randomDuration (r limit : Nat) : Option Nat :=
  let trunc := limit % 2 ^ 64
  if trunc = 0 then none else some ((r % 2 ^ 64) % trunc)

/-- `Backoff::backoff` (backoff.rs lines 13-17): draw a delay below the
current limit, then double the limit capping at `max_limit`.  Returns
the slept delay and the updated state; `none` when `random_duration`
divides by zero or `2 * self.limit` overflows `Duration`. -/
def Backoff.backoffStep (b : Backoff) (r : Nat) : Option (Nat × Backoff) :=
  match randomDuration r b.limit with
  | none => none
  | some delay =>
    let doubled := 2 * b.limit
    if durationMaxNanos < doubled then none
    else some (delay, { limit := min doubled b.maxLimit, maxLimit := b.maxLimit })

/-- `k` successive `backoff()` calls with random draws supplied by the
oracle `f`; `none` if any call panics. -/
def runBackoff (f : Nat → Nat) : Nat → Backoff → Option Backoff
  | 0, b => some b
  | k + 1, b =>
    match b.backoffStep (f k) with
    | none => none
    | some (_, b2) => runBackoff f k b2

/-! ## Remaining helper definitions for the claim statements -/

/-- The shape of every atomic access the Bakery spin loop can perform:
a `SeqCst` load of some flag or a `Relaxed` load of some label. -/
def spinEventShape (e : BakeryEvent) : Prop :=
  (∃ k, e = ⟨AccessKind.load, BakeryLoc.flag k, MemOrder.seqcst⟩) ∨
  (∃ k, e = ⟨AccessKind.load, BakeryLoc.label k, MemOrder.relaxed⟩)

/-- The flag of the head node of a chain. -/
def RecAcq.headFlag : RecAcq → Bool
  | .last f => f
  | .cons f _ => f

/-- `n` successive `borrow` calls on the `refs_left` counter: whether
all of them succeeded, and the final counter value. -/
def borrowsThen : Nat → Int → Bool × Int
  | 0, r => (true, r)
  | n + 1, r =>
    match borrowRefs r with
    | (Except.ok _, r2) => borrowsThen n r2
    | (Except.error _, r2) => (false, r2)

/-- A fresh two-participant Bakery state: all flags down, all labels 0. -/
def bakeryQuiet2 : BakeryState :=
  { capacity := 2, flags := fun _ => false, labels := fun _ => 0 }

/-- Environment snapshot in which participant 1 has its flag raised with
label 0 (it is inside its doorway or holds an older ticket). -/
def bakeryBusy2 : BakeryState :=
  { capacity := 2, flags := fun k => k == 1, labels := fun _ => 0 }

/-- A fresh single-participant Bakery state. -/
def bakeryQuiet1 : BakeryState :=
  { capacity := 1, flags := fun _ => false, labels := fun _ => 0 }

/-- The trace of `BakeryRef::acquire` for the sole participant of a
quiet one-participant lock: the doorway accesses only. -/
def bakeryQuiet1Trace : List BakeryEvent :=
  [⟨AccessKind.store, BakeryLoc.flag 0, MemOrder.seqcst⟩,
   ⟨AccessKind.load, BakeryLoc.label 0, MemOrder.seqcst⟩,
   ⟨AccessKind.store, BakeryLoc.label 0, MemOrder.seqcst⟩]

/-! ## Theorems -/

/-- Helper: `n` successful borrows bring the counter from `n` down to 0. -/
theorem borrowsThen_from_cast (n : Nat) : borrowsThen n ((n : Nat) : Int) = (true, 0) := by
  induction n with
  | zero => rfl
  | succ n ih =>
    have hpos : ((n + 1 : Nat) : Int) > 0 := by positivity
    have hsub : ((n + 1 : Nat) : Int) - 1 = ((n : Nat) : Int) := by push_cast; ring
    simp only [borrowsThen, borrowRefs, if_pos hpos, hsub]
    exact ih

/-- C1: `FilterLock`/`BakeryLock` of capacity `K ≥ 1`: the first
`borrow` on a fresh lock succeeds and hands out the participant
identity `id = K` (the pre-decrement `refs_left`), and `acquire`
dereferences index `id = K` in the length-`K` per-participant arrays —
an out-of-bounds access, so the claimed invariant `0 ≤ id < K` fails
and `acquire` panics on indexing. -/
theorem claim1_borrow_id_out_of_bounds :
    ∀ K : Nat,
      (slotBorrow (freshRefsLeft (K + 1))).1 = Except.ok (K + 1) ∧
      (K + 1) ∈ acquireTouchedIndices (K + 1) (K + 1) ∧
      ¬ indexInBounds (K + 1) (K + 1) := by
  intro K
  refine ⟨?_, ?_, ?_⟩
  · have hpos : ((K + 1 : Nat) : Int) > 0 := by positivity
    simp [slotBorrow, borrowRefs, freshRefsLeft, if_pos hpos]
  · exact List.mem_cons_self _ _
  · simp [indexInBounds]

/-- C3: bounded-lock capacity enforcement.  From a fresh counter of
capacity `K+1`, `K+1` borrows all succeed ending with 0 references
left; the next `borrow` fails with `ThreadCapacityExceeded` and leaves
the counter unchanged; after one reference is dropped a subsequent
`borrow` succeeds.  The same cycle is exhibited on the `PetersonLock`
embedding (its capacity is 2). -/
theorem claim3_bounded_borrow_capacity :
    ∀ K : Nat,
      borrowsThen (K + 1) (freshRefsLeft (K + 1)) = (true, 0) ∧
      borrowRefs 0 = (Except.error BorrowError.threadCapacityExceeded, 0) ∧
      borrowRefs (refDrop 0) = (Except.ok 1, 0) ∧
      (PetersonLock.borrow ⟨false, false, false, 0⟩).1 =
        Except.error BorrowError.threadCapacityExceeded ∧
      (PetersonLock.borrow ⟨false, false, false, 0⟩).2.refsLeft = 0 ∧
      (PetersonLock.borrow (PetersonLock.dropRef ⟨false, false, false, 0⟩)).1 =
        Except.ok true := by
  intro K
  exact ⟨borrowsThen_from_cast (K + 1), rfl, rfl, rfl, rfl, rfl⟩

/-- C4: the atomic owned cell.  `swap` returns the previously-installed
value and installs the new one (so a second swap returns the value the
first installed); `compare_swap_strong` succeeds — returning the
displaced old value and installing the new one — exactly when the raw
identity of the current value equals the expected identity, and
otherwise returns the new value back to the caller with the cell
unchanged. -/
theorem claim4_atomic_swap_compare_swap :
    ∀ (α ρ : Type) (_inst : DecidableEq ρ) (rawOf : α → ρ)
      (c : AtomicCell α) (a b new : α) (cmp : ρ),
      (c.swap a).1 = c.val ∧
      (c.swap a).2.val = a ∧
      ((c.swap a).2.swap b).1 = a ∧
      (((c.compare_swap_strong rawOf cmp new).1 = Except.ok c.val ∧
          (c.compare_swap_strong rawOf cmp new).2.val = new) ↔ rawOf c.val = cmp) ∧
      (((c.compare_swap_strong rawOf cmp new).1 = Except.error new ∧
          (c.compare_swap_strong rawOf cmp new).2 = c) ↔ ¬ rawOf c.val = cmp) := by
  intro α ρ _inst rawOf c a b new cmp
  refine ⟨rfl, rfl, rfl, ?_, ?_⟩ <;> by_cases h : rawOf c.val = cmp <;>
    simp [AtomicCell.compare_swap_strong, h]

/-- C7: `PetersonLock::with_capacity(n)` panics exactly when `n > 2`,
and returns a lock for every `n ≤ 2`. -/
theorem claim7_peterson_capacity_panic :
    ∀ n : Nat,
      (PetersonLock.with_capacity n = none ↔ 2 < n) ∧
      ((PetersonLock.with_capacity n).isSome ↔ n ≤ 2) := by
  intro n
  by_cases h : n > 2 <;> simp [PetersonLock.with_capacity, h] <;> omega

/-- C8: on a fresh `ClhLock` the seeded tail node's flag is already set,
so the first `acquire`'s disposal of the swapped-out predecessor spins
for zero iterations and a guard is returned. -/
theorem claim8_clh_first_acquire_no_wait :
    ClhState.new.tail.flag = true ∧
    clhAcquire ClhState.new =
      some ({ tail := { flag := false, payload := () } }, (), 0) := by
  exact ⟨rfl, rfl⟩

/-- C10: for every `n ≤ 2`, `PetersonLock::with_capacity(n)` returns a
lock with `capacity() = 2` and `refs_left` starting at 2, and two
successive borrows succeed (with ids `false` then `true`) even when the
requested count is 0 or 1: the requested count is not recorded. -/
theorem claim10_peterson_ignores_requested_count :
    ∀ n : Nat, n ≤ 2 →
      ∃ l, PetersonLock.with_capacity n = some l ∧
        l.capacity = 2 ∧ l.refs_left = 2 ∧
        (l.borrow).1 = Except.ok false ∧
        ((l.borrow).2.borrow).1 = Except.ok true := by
  intro n hn
  have h : ¬ n > 2 := by omega
  exact ⟨{ flag0 := false, flag1 := false, victim := false, refsLeft := 2 },
    by simp [PetersonLock.with_capacity, h], rfl, rfl, rfl, rfl⟩

/-- Witness for C10 at the concrete request `n = 1`. -/
theorem claim10_peterson_ignores_requested_count_witness :
    1 ≤ 2 ∧
    ∃ l, PetersonLock.with_capacity 1 = some l ∧
      l.capacity = 2 ∧ l.refs_left = 2 ∧
      (l.borrow).1 = Except.ok false ∧
      ((l.borrow).2.borrow).1 = Except.ok true :=
  ⟨by decide, claim10_peterson_ignores_requested_count 1 (by decide)⟩

/-- Helper: every access of one spin-check evaluation is a `SeqCst` flag
load or a `Relaxed` label load. -/
theorem bakerySpinCheck_shape (s : BakeryState) (id m k : Nat) :
    ∀ e ∈ (bakerySpinCheck s id m k).2, spinEventShape e := by
  intro e he
  by_cases h1 : k = id
  · simp [bakerySpinCheck, h1] at he
  · by_cases h2 : s.flags k
    · simp [bakerySpinCheck, h1, h2] at he
      rcases he with rfl | rfl
      · exact Or.inl ⟨k, rfl⟩
      · exact Or.inr ⟨k, rfl⟩
    · simp [bakerySpinCheck, h1, h2] at he
      subst he
      exact Or.inl ⟨k, rfl⟩

/-- Helper: every access of one full spin-loop predicate evaluation has
the spin shape. -/
theorem bakeryAnyAux_shape (s : BakeryState) (id m : Nat) :
    ∀ ks : List Nat, ∀ e ∈ (bakeryAnyAux s id m ks).2, spinEventShape e := by
  intro ks
  induction ks with
  | nil => simp [bakeryAnyAux]
  | cons k ks ih =>
    intro e he
    simp only [bakeryAnyAux] at he
    by_cases hb : (bakerySpinCheck s id m k).1
    · simp only [hb, if_true] at he
      exact bakerySpinCheck_shape s id m k e he
    · simp only [hb, if_false, Bool.false_eq_true, List.mem_append] at he
      rcases he with he | he
      · exact bakerySpinCheck_shape s id m k e he
      · exact ih e he

/-- Helper: every access of the whole spin loop has the spin shape. -/
theorem bakerySpinLoop_shape (s2 : BakeryState) (id m : Nat) :
    ∀ (envs : List BakeryState) (sp : List BakeryEvent),
      bakerySpinLoop s2 id m envs = some sp → ∀ e ∈ sp, spinEventShape e := by
  intro envs
  induction envs with
  | nil => intro sp h; exact absurd h (by simp [bakerySpinLoop])
  | cons env rest ih =>
    intro sp h e he
    simp only [bakerySpinLoop] at h
    by_cases hb : (bakerySpinPass (imposeOwn s2 id env) id m).1
    · simp only [hb, if_true] at h
      cases hrec : bakerySpinLoop s2 id m rest with
      | none => rw [hrec] at h; exact absurd h (by simp)
      | some tail =>
        rw [hrec] at h
        cases h
        rcases List.mem_append.mp he with he2 | he2
        · exact bakeryAnyAux_shape _ id m _ e he2
        · exact ih tail hrec e he2
    · simp only [hb, if_false, Bool.false_eq_true] at h
      cases h
      exact bakeryAnyAux_shape _ id m _ e he

/-- C2 counterexample: an actual `BakeryRef::acquire` run performs a
`Relaxed` (not `SeqCst`) load of `labels[1]` inside the spin loop —
participant 0 acquires on a fresh two-slot lock while participant 1's
flag is momentarily up — so not every flag/label read in `acquire` is
sequentially consistent. -/
theorem claim2_spin_label_load_relaxed :
    BakeryEvent.mk AccessKind.load (BakeryLoc.label 1) MemOrder.relaxed ∈
      (bakeryAcquire bakeryQuiet2 0 [bakeryBusy2, bakeryQuiet2]).getD [] ∧
    MemOrder.relaxed ≠ MemOrder.seqcst := by decide

/-- C2 (amended): in `BakeryRef::acquire` the flag set, the max-label
scan and the label publish all use `SeqCst`, and in the spin loop the
flag loads use `SeqCst` while the label loads use `Relaxed`. -/
theorem claim2_bakery_orderings_amended :
    ∀ (s : BakeryState) (id : Nat) (envs : List BakeryState) (trace : List BakeryEvent),
      bakeryAcquire s id envs = some trace →
      ∃ door spin, trace = door ++ spin ∧
        door = BakeryEvent.mk AccessKind.store (BakeryLoc.flag id) MemOrder.seqcst ::
          ((List.range s.capacity).map
            fun k => BakeryEvent.mk AccessKind.load (BakeryLoc.label k) MemOrder.seqcst) ++
          [BakeryEvent.mk AccessKind.store (BakeryLoc.label id) MemOrder.seqcst] ∧
        ∀ e ∈ spin, spinEventShape e := by
  intro s id envs trace h
  simp only [bakeryAcquire] at h
  cases hsp : bakerySpinLoop (bakeryDoorway s id).2.1 id (bakeryDoorway s id).1 envs with
  | none => rw [hsp] at h; exact absurd h (by simp)
  | some sp =>
    rw [hsp] at h
    simp only [Option.map_some', Option.some.injEq] at h
    refine ⟨(bakeryDoorway s id).2.2, sp, h.symm, rfl, ?_⟩
    exact bakerySpinLoop_shape _ id _ envs sp hsp

/-- Witness for C2 at a concrete run: the sole participant of a quiet
one-slot lock, whose trace is exactly the doorway accesses. -/
theorem claim2_bakery_orderings_amended_witness :
    ∃ door spin, bakeryQuiet1Trace = door ++ spin ∧
      door = BakeryEvent.mk AccessKind.store (BakeryLoc.flag 0) MemOrder.seqcst ::
        ((List.range bakeryQuiet1.capacity).map
          fun k => BakeryEvent.mk AccessKind.load (BakeryLoc.label k) MemOrder.seqcst) ++
        [BakeryEvent.mk AccessKind.store (BakeryLoc.label 0) MemOrder.seqcst] ∧
      ∀ e ∈ spin, spinEventShape e :=
  claim2_bakery_orderings_amended bakeryQuiet1 0 [bakeryQuiet1] bakeryQuiet1Trace (by decide)

/-- Helper: the spin on the slot flag completes exactly when the
schedule eventually observes `true`. -/
theorem spinLoadsUntilTrue_isSome :
    ∀ sched : List Bool, (spinLoadsUntilTrue sched).isSome ↔ true ∈ sched := by
  intro sched
  induction sched with
  | nil => simp [spinLoadsUntilTrue]
  | cons b rest ih =>
    cases b <;> simp [spinLoadsUntilTrue, ih]

/-- C5 counterexample: the fetch-and-increment of `next_slot` in
`ArrayRef::acquire` (src/lock/array.rs) is performed with `Relaxed`,
not `AcqRel`, ordering — shown on a concrete acquire against a
four-slot lock whose flag is immediately observed `true`. -/
theorem claim5_fetch_add_relaxed :
    arrayRefAcquireTrace 4 0 [true] =
      some [⟨AccessKind.rmw, ArrayLoc.nextSlot, MemOrder.relaxed⟩,
            ⟨AccessKind.load, ArrayLoc.flag 0, MemOrder.acquire⟩] ∧
    MemOrder.relaxed ≠ MemOrder.acqrel := by decide

/-- C5 (amended): the Array lock's `acquire` fetch-and-increments the
slot counter — with `Relaxed` ordering in `ArrayRef::acquire`
(src/lock/array.rs) and with `AcqRel` ordering in the earlier
`ArrayLockRef::acquire` iteration (src/lock.rs) — and then spins with
`Acquire` loads on flag number `slot % capacity` until it observes
`true`. -/
theorem claim5_array_acquire_amended :
    ∀ (capacity slot : Nat) (sched : List Bool),
      ((arrayRefAcquireTrace capacity slot sched).isSome ↔ true ∈ sched) ∧
      (∀ trace, arrayRefAcquireTrace capacity slot sched = some trace →
        ∃ n, trace = ⟨AccessKind.rmw, ArrayLoc.nextSlot, MemOrder.relaxed⟩ ::
          List.replicate n ⟨AccessKind.load, ArrayLoc.flag (slot % capacity), MemOrder.acquire⟩) ∧
      (∀ trace, arrayLockRefAcquireTrace capacity slot sched = some trace →
        ∃ n, trace = ⟨AccessKind.rmw, ArrayLoc.nextSlot, MemOrder.acqrel⟩ ::
          List.replicate n ⟨AccessKind.load, ArrayLoc.flag (slot % capacity), MemOrder.acquire⟩) := by
  intro capacity slot sched
  refine ⟨?_, ?_, ?_⟩
  · simpa [arrayRefAcquireTrace, arrayAcquireTrace] using spinLoadsUntilTrue_isSome sched
  · intro trace h
    simp only [arrayRefAcquireTrace, arrayAcquireTrace] at h
    cases hs : spinLoadsUntilTrue sched with
    | none => rw [hs] at h; exact absurd h (by simp)
    | some n =>
      rw [hs] at h
      simp only [Option.map_some', Option.some.injEq] at h
      exact ⟨n, h.symm⟩
  · intro trace h
    simp only [arrayLockRefAcquireTrace, arrayAcquireTrace] at h
    cases hs : spinLoadsUntilTrue sched with
    | none => rw [hs] at h; exact absurd h (by simp)
    | some n =>
      rw [hs] at h
      simp only [Option.map_some', Option.some.injEq] at h
      exact ⟨n, h.symm⟩

/-- Witness for C5 at the concrete acquire that observes its flag on
the first load. -/
theorem claim5_array_acquire_amended_witness :
    (∃ n, ([⟨AccessKind.rmw, ArrayLoc.nextSlot, MemOrder.relaxed⟩,
            ⟨AccessKind.load, ArrayLoc.flag 0, MemOrder.acquire⟩] : List ArrayEvent) =
      ⟨AccessKind.rmw, ArrayLoc.nextSlot, MemOrder.relaxed⟩ ::
        List.replicate n ⟨AccessKind.load, ArrayLoc.flag (0 % 4), MemOrder.acquire⟩) ∧
    (∃ n, ([⟨AccessKind.rmw, ArrayLoc.nextSlot, MemOrder.acqrel⟩,
            ⟨AccessKind.load, ArrayLoc.flag 0, MemOrder.acquire⟩] : List ArrayEvent) =
      ⟨AccessKind.rmw, ArrayLoc.nextSlot, MemOrder.acqrel⟩ ::
        List.replicate n ⟨AccessKind.load, ArrayLoc.flag (0 % 4), MemOrder.acquire⟩) :=
  ⟨(claim5_array_acquire_amended 4 0 [true]).2.1 _ (by decide),
   (claim5_array_acquire_amended 4 0 [true]).2.2 _ (by decide)⟩

/-- Helper: `try_recur` consumes the whole chain exactly when every
node is satisfied. -/
theorem try_recur_eq_none_iff :
    ∀ c : RecAcq, c.try_recur = none ↔ c.allSatisfied = true := by
  intro c
  induction c with
  | last f => cases f <;> simp [RecAcq.try_recur, RecAcq.allSatisfied]
  | cons f n ih => cases f <;> simp [RecAcq.try_recur, RecAcq.allSatisfied, ih]

/-- Helper: a remainder returned by `try_recur` starts at an
unsatisfied node, is a fixed point of `try_recur`, and is reached from
the original chain by consuming only satisfied nodes. -/
theorem try_recur_some_spec :
    ∀ (c r : RecAcq), c.try_recur = some r →
      r.headFlag = false ∧ r.try_recur = some r ∧ SatSuffix r c := by
  intro c
  induction c with
  | last f =>
    intro r h
    cases f with
    | false =>
      simp only [RecAcq.try_recur, Option.some.injEq] at h
      subst h
      exact ⟨rfl, rfl, SatSuffix.refl _⟩
    | true => simp [RecAcq.try_recur] at h
  | cons f n ih =>
    intro r h
    cases f with
    | false =>
      simp only [RecAcq.try_recur, Option.some.injEq] at h
      subst h
      exact ⟨rfl, rfl, SatSuffix.refl _⟩
    | true =>
      simp only [RecAcq.try_recur] at h
      obtain ⟨h1, h2, h3⟩ := ih r h
      exact ⟨h1, h2, SatSuffix.step n r h3⟩

/-- Helper: when the walk hits an unsatisfied remainder, the loop times
out — for any remaining fuel — storing exactly that remainder in the
caller's own (now released) node. -/
theorem tryAcquireLoop_timeout :
    ∀ (fuel : Nat) (c r : RecAcq), c.try_recur = some r →
      tryAcquireLoop fuel c = TimeoutResult.timedOut (.cons true r) := by
  intro fuel
  induction fuel with
  | zero =>
    intro c r h
    simp [tryAcquireLoop, h]
  | succ f ih =>
    intro c r h
    have hr := (try_recur_some_spec c r h).2.1
    simp [tryAcquireLoop, h, ih r r hr]

/-- C6: `TimeoutLock::try_acquire`.  When every node of the predecessor
chain is already satisfied the walk collapses it and a guard is
returned whatever the deadline allows; when an unsatisfied predecessor
remains and the deadline elapses, the call returns the not-acquired
indication with the unconsumed remainder of the chain stored back into
the caller's own node (whose flag the returned guard's drop has set) —
the remainder starts at the first unsatisfied node and only satisfied
nodes were consumed on the way to it, so no chain node is dropped or
released twice. -/
theorem claim6_timeout_try_acquire :
    ∀ (chain : RecAcq) (fuel : Nat),
      (chain.allSatisfied = true → timeoutTryAcquire fuel chain = TimeoutResult.acquired) ∧
      (∀ r, chain.try_recur = some r →
        timeoutTryAcquire fuel chain = TimeoutResult.timedOut (.cons true r) ∧
        r.headFlag = false ∧ SatSuffix r chain) := by
  intro chain fuel
  constructor
  · intro hall
    have hnone : chain.try_recur = none := (try_recur_eq_none_iff chain).mpr hall
    cases fuel <;> simp [timeoutTryAcquire, tryAcquireLoop, hnone]
  · intro r h
    obtain ⟨h1, _, h3⟩ := try_recur_some_spec chain r h
    exact ⟨tryAcquireLoop_timeout fuel chain r h, h1, h3⟩

/-- Witness for C6: a chain of two satisfied nodes is acquired; a chain
with a satisfied head and an unsatisfied second node times out with the
unsatisfied suffix stored in the caller's node. -/
theorem claim6_timeout_try_acquire_witness :
    timeoutTryAcquire 3 (RecAcq.cons true (RecAcq.last true)) = TimeoutResult.acquired ∧
    (timeoutTryAcquire 3 (RecAcq.cons true (RecAcq.cons false (RecAcq.last true))) =
        TimeoutResult.timedOut (.cons true (RecAcq.cons false (RecAcq.last true))) ∧
      (RecAcq.cons false (RecAcq.last true)).headFlag = false ∧
      SatSuffix (RecAcq.cons false (RecAcq.last true))
        (RecAcq.cons true (RecAcq.cons false (RecAcq.last true)))) :=
  ⟨(claim6_timeout_try_acquire (RecAcq.cons true (RecAcq.last true)) 3).1 (by decide),
   (claim6_timeout_try_acquire (RecAcq.cons true (RecAcq.cons false (RecAcq.last true))) 3).2
     (RecAcq.cons false (RecAcq.last true)) (by decide)⟩

/-- Helper: one `backoff()` call in the non-panicking regime: the slept
delay is the random draw reduced mod the current limit, and the limit
doubles capped at `max_limit`. -/
theorem backoffStep_eq (b : Backoff) (r : Nat) (h1 : 0 < b.limit) (h2 : b.limit < 2 ^ 64) :
    b.backoffStep r = some ((r % 2 ^ 64) % b.limit,
      { limit := min (2 * b.limit) b.maxLimit, maxLimit := b.maxLimit }) := by
  unfold Backoff.backoffStep randomDuration
  have htr : b.limit % 2 ^ 64 = b.limit := Nat.mod_eq_of_lt h2
  have hne : ¬ b.limit = 0 := by omega
  have h2a : 2 * b.limit < 2 * 2 ^ 64 := by omega
  have h2b : 2 * 2 ^ 64 ≤ durationMaxNanos := by decide
  have hnd : ¬ durationMaxNanos < 2 * b.limit := by omega
  simp only [htr, if_neg hne, if_neg hnd]

/-- Helper: absorbing one doubling step into the closed-form limit. -/
theorem min_double_absorb (k l M : Nat) :
    min (2 ^ k * min (2 * l) M) M = min (2 ^ (k + 1) * l) M := by
  rcases le_total (2 * l) M with h | h
  · rw [min_eq_left h]
    congr 1
    ring
  · have hml : min (2 * l) M = M := min_eq_right h
    rw [hml]
    have hp : 0 < 2 ^ k := by positivity
    have h3 : l ≤ 2 ^ k * l := Nat.le_mul_of_pos_left l hp
    have h4 : M ≤ 2 ^ (k + 1) * l := by
      calc M ≤ 2 * l := h
        _ ≤ 2 * (2 ^ k * l) := by omega
        _ = 2 ^ (k + 1) * l := by ring
    rw [min_eq_right (Nat.le_mul_of_pos_left M hp), min_eq_right h4]

/-- Helper: after `k` calls from limit `l ≤ M < 2^64`, the limit is
`min (2^k * l) M` and no call panicked. -/
theorem runBackoff_limit_formula (M : Nat) (hM : M < 2 ^ 64) (f : Nat → Nat) :
    ∀ (k l : Nat), 0 < l → l ≤ M →
      runBackoff f k ⟨l, M⟩ = some ⟨min (2 ^ k * l) M, M⟩ := by
  intro k
  induction k with
  | zero =>
    intro l hl hlM
    simp [runBackoff, min_eq_left hlM]
  | succ k ih =>
    intro l hl hlM
    have hlt : l < 2 ^ 64 := lt_of_le_of_lt hlM hM
    have hstep := backoffStep_eq ⟨l, M⟩ (f k) hl hlt
    simp only [runBackoff, hstep]
    have hl2 : 0 < min (2 * l) M := by
      have : 0 < M := by omega
      omega
    have hlM2 : min (2 * l) M ≤ M := min_le_right _ _
    rw [ih (min (2 * l) M) hl2 hlM2, min_double_absorb]

/-- C9 counterexample: with `min = 2^64` nanoseconds (a nonzero
duration), the very first `backoff()` call panics — `limit.as_nanos()
as u64` truncates to 0 and `random::<u64>() % 0` divides by zero — so
no sleep strictly below the current limit happens. -/
theorem claim9_backoff_panics :
    0 < 2 ^ 64 ∧ Backoff.backoffStep (Backoff.new (2 ^ 64) (2 ^ 64)) 0 = none :=
  ⟨by positivity, rfl⟩

/-- C9 (amended): for limits below `2^64` nanoseconds the claim holds:
each `backoff()` call sleeps for a delay strictly below the current
limit and then doubles the limit capped at `max_limit`, and for
`new(min, max)` with `0 < min ≤ max < 2^64` the limit after `k` calls
is `min (2^k * min) max`. -/
theorem claim9_backoff_amended :
    (∀ (b : Backoff) (r : Nat), 0 < b.limit → b.limit < 2 ^ 64 →
      ∃ delay, b.backoffStep r =
        some (delay, { limit := min (2 * b.limit) b.maxLimit, maxLimit := b.maxLimit }) ∧
        delay < b.limit) ∧
    (∀ (m M k : Nat) (f : Nat → Nat), 0 < m → m ≤ M → M < 2 ^ 64 →
      runBackoff f k (Backoff.new m M) = some (Backoff.new (min (2 ^ k * m) M) M)) := by
  constructor
  · intro b r h1 h2
    exact ⟨(r % 2 ^ 64) % b.limit, backoffStep_eq b r h1 h2, Nat.mod_lt _ h1⟩
  · intro m M k f h1 h2 h3
    exact runBackoff_limit_formula M h3 f k m h1 h2

/-- Witness for C9 at `new(2, 8)` with random draw 5 and three calls. -/
theorem claim9_backoff_amended_witness :
    (∃ delay, (Backoff.new 2 8).backoffStep 5 =
      some (delay, { limit := min (2 * (Backoff.new 2 8).limit) (Backoff.new 2 8).maxLimit,
                     maxLimit := (Backoff.new 2 8).maxLimit }) ∧
      delay < (Backoff.new 2 8).limit) ∧
    runBackoff (fun _ => 5) 3 (Backoff.new 2 8) = some (Backoff.new (min (2 ^ 3 * 2) 8) 8) :=
  ⟨claim9_backoff_amended.1 (Backoff.new 2 8) 5 (by decide) (by decide),
   claim9_backoff_amended.2 2 8 3 (fun _ => 5) (by decide) (by decide) (by decide)⟩
